import Mathlib

/-!
Verification of the skill testing framework (`skill_testing_framework/`):
a shallow embedding of `skill_schema.py`, `integration_test_framework.py`,
`e2e_test_framework.py` and `test_runner.py`, followed by theorems about
the embedded operations.

Modelling conventions:
* Python runtime values are embedded as the inductive `Value`; `Value.vNone`
  plays the role of Python `None` (so `x is not None` becomes `x ≠ Value.vNone`).
* Python dicts are embedded as association lists with first-match lookup and
  insert-or-replace update, which preserves the insertion order that CPython
  dicts guarantee.
* Callables (skill implementations, validation predicates, hooks) are embedded
  as Lean functions; a callable that may raise returns `Except String _`.
* Wall-clock fields (durations, timestamps) and human-readable message strings
  attached to results are elided: no claim depends on them.
* Floating point metric arithmetic is embedded over `ℚ`; every comparison a
  claim mentions is exact at the concrete numbers involved.
-/

namespace SkillTesting

/-- Embedded Python runtime values (the subset the framework manipulates). -/
inductive Value where
  | vNone
  | vBool (b : Bool)
  | vInt (n : Int)
  | vStr (s : String)
  deriving DecidableEq, Repr

/-- Python `type(v).__name__`, as used by `_validate_output`. -/
def Value.typeName : Value → String
  | .vNone => "NoneType"
  | .vBool _ => "bool"
  | .vInt _ => "int"
  | .vStr _ => "str"

/-- First-match lookup in an association list (Python `dict.get` / `dict[k]`). -/
def dictGet {α : Type} : List (String × α) → String → Option α
  | [], _ => none
  | (k, v) :: rest, key => if k = key then some v else dictGet rest key

/-- Python `dict.get(k, default)`. -/
def dictGetD {α : Type} (d : List (String × α)) (key : String) (dflt : α) : α :=
  (dictGet d key).getD dflt

/-- Python `k in dict`. -/
def dictContains {α : Type} (d : List (String × α)) (key : String) : Bool :=
  (dictGet d key).isSome

/-- Insert-or-replace update (`dict[k] = v`), keeping CPython insertion order. -/
def dictInsert {α : Type} : List (String × α) → String → α → List (String × α)
  | [], key, v => [(key, v)]
  | (k, w) :: rest, key, v =>
      if k = key then (key, v) :: rest else (k, w) :: dictInsert rest key v

/-- Python `dict.values()` (in insertion order). -/
def dictValues {α : Type} (d : List (String × α)) : List α :=
  d.map Prod.snd

/-- `skill_schema.SkillType`. -/
inductive SkillType where
  | tool
  | workflow
  | analysis
  | generation
  deriving DecidableEq, Repr

/-- `skill_schema.TriggerCondition`. -/
inductive TriggerCondition where
  | keyword
  | context
  | explicit
  | auto
  deriving DecidableEq, Repr

/-- `skill_schema.SkillMetadata`. -/
structure SkillMetadata where
  name : String
  version : String
  description : String
  skillType : SkillType
  author : String
  createdAt : String
  updatedAt : String
  dependencies : List String := []
  tags : List String := []
  deriving DecidableEq, Repr

/-- `skill_schema.TriggerRule`. -/
structure TriggerRule where
  conditionType : TriggerCondition
  pattern : String
  priority : Int := 0
  contextRequirements : List (String × Value) := []
  deriving DecidableEq, Repr

/-- `TriggerRule.matches`: keyword rules do a case-insensitive substring test
(`pattern.lower() in input_text.lower()`), explicit rules compare for equality,
context rules require every required key to map to the required value in the
supplied context (`context.get(k) == v`, where a missing key yields `None`),
and every other condition type (AUTO) falls through to `return False`. -/
def TriggerRule.matches (t : TriggerRule) (inputText : String)
    (context : Option (List (String × Value))) : Bool :=
  match t.conditionType with
  | .keyword =>
      decide (t.pattern.toList.map Char.toLower <:+: inputText.toList.map Char.toLower)
  | .explicit => t.pattern == inputText
  | .context =>
      match context with
      | none => false
      | some ctx =>
          t.contextRequirements.all (fun kv => dictGetD ctx kv.1 Value.vNone == kv.2)
  | .auto => false

/-- `skill_schema.SkillParameter`; the validation callable is a predicate. -/
structure SkillParameter where
  name : String
  type : String
  required : Bool := true
  default : Option Value := none
  description : String := ""
  validation : Option (Value → Bool) := none

/-- `skill_schema.SkillOutput`. -/
structure SkillOutput where
  type : String
  schema : List (String × Value) := []
  examples : List Value := []

/-- `skill_schema.Skill`; the implementation callable receives the keyword
arguments as an association list and either returns a value or raises. -/
structure Skill where
  metadata : SkillMetadata
  triggers : List TriggerRule
  parameters : List SkillParameter
  output : SkillOutput
  implementation : Option (List (String × Value) → Except String Value) := none
  promptTemplate : String := ""
  examples : List (List (String × Value)) := []
  redFlags : List String := []

/-- One entry of the error list built by `Skill.validate`; each constructor
stands for one `errors.append(...)` in the source. -/
inductive ValidationIssue where
  | nameRequired
  | versionRequired
  | descriptionRequired
  | triggerRequired
  | requiredParamHasDefault (paramName : String)
  | implementationRequired
  deriving DecidableEq, Repr

/-- `Skill.validate`: empty name/version/description, empty trigger list, a
required parameter carrying a default, and the absence of both an
implementation and a prompt template each contribute one error. -/
def Skill.validate (s : Skill) : List ValidationIssue :=
  (if s.metadata.name = "" then [ValidationIssue.nameRequired] else []) ++
  (if s.metadata.version = "" then [ValidationIssue.versionRequired] else []) ++
  (if s.metadata.description = "" then [ValidationIssue.descriptionRequired] else []) ++
  (if s.triggers.isEmpty then [ValidationIssue.triggerRequired] else []) ++
  ((s.parameters.filter (fun p => p.required)).filterMap (fun p =>
    if p.default.isSome then some (ValidationIssue.requiredParamHasDefault p.name)
    else none)) ++
  (if s.implementation.isNone && s.promptTemplate = "" then
    [ValidationIssue.implementationRequired] else [])

/-- `Skill.can_trigger`: true iff any trigger rule matches. -/
def Skill.canTrigger (s : Skill) (inputText : String)
    (context : Option (List (String × Value))) : Bool :=
  s.triggers.any (fun t => t.matches inputText context)

/-- One entry of the error list built by `Skill._validate_parameters`:
either the single "Missing required parameters: {...}" entry carrying all
missing names, or one "Validation failed for parameter ..." entry. -/
inductive ParamIssue where
  | missingRequired (names : List String)
  | validationFailed (paramName : String)
  deriving DecidableEq, Repr

/-- `Skill._validate_parameters`: one error listing every required parameter
not supplied (the source computes it as a set difference), then one error per
supplied parameter whose custom validation predicate rejects its value. -/
def Skill.validateParameters (s : Skill) (params : List (String × Value)) :
    List ParamIssue :=
  let requiredNames := (s.parameters.filter (fun p => p.required)).map (fun p => p.name)
  let missing := requiredNames.filter (fun n => !(dictContains params n))
  (if missing.isEmpty then [] else [ParamIssue.missingRequired missing]) ++
  s.parameters.filterMap (fun p =>
    match dictGet params p.name with
    | some v =>
        match p.validation with
        | some f => if f v then none else some (ParamIssue.validationFailed p.name)
        | none => none
    | none => none)

/-- The ways `Skill.execute` can raise: the `ValueError` carrying the parameter
error list, the `NotImplementedError`, or an exception raised by the body. -/
inductive ExecError where
  | paramError (issues : List ParamIssue)
  | notImplemented
  | bodyError (msg : String)
  deriving DecidableEq, Repr

/-- `Skill.execute`: validate the parameters, raise on any error, otherwise
invoke the implementation (raising `NotImplemented` when there is none). -/
def Skill.execute (s : Skill) (params : List (String × Value)) :
    Except ExecError Value :=
  let paramErrors := s.validateParameters params
  if paramErrors.isEmpty then
    match s.implementation with
    | some impl =>
        match impl params with
        | Except.ok v => Except.ok v
        | Except.error e => Except.error (ExecError.bodyError e)
    | none => Except.error ExecError.notImplemented
  else
    Except.error (ExecError.paramError paramErrors)

/-- `skill_schema.SkillRegistry`: a dict from `name@version` to the skill. -/
structure SkillRegistry where
  skills : List (String × Skill) := []

/-- The composite `f"{name}@{version}"` key. -/
def skillId (s : Skill) : String :=
  s.metadata.name ++ "@" ++ s.metadata.version

/-- `SkillRegistry.register`, with the mutation made explicit: on validation
errors the registry is returned unchanged together with the raised error list
(`ValueError`), otherwise the skill is stored under its composite key. -/
def SkillRegistry.register (r : SkillRegistry) (s : Skill) :
    SkillRegistry × Option (List ValidationIssue) :=
  let errors := s.validate
  if errors.isEmpty then
    ({ skills := dictInsert r.skills (skillId s) s }, none)
  else
    (r, some errors)

/-- Python `max(skills, key=lambda s: s.metadata.version)` on a nonempty list:
the first element whose version string is maximal under the plain string
order. Returns `none` on the empty list (the source guards with
`if matching_skills`). The comparison is on the underlying character lists,
which is the string order (`String.lt_iff_toList_lt`) stated in a
kernel-reducible form. -/
def latestByVersion : List Skill → Option Skill
  | [] => none
  | x :: xs =>
      some (xs.foldl (fun best s =>
        if best.metadata.version.toList < s.metadata.version.toList then s else best) x)

/-- `SkillRegistry.get`: a truthy version argument selects the exact composite
key; otherwise (no version, or the falsy empty string) the latest version among
the skills of that name is returned, "latest" meaning greatest version string. -/
def SkillRegistry.get (r : SkillRegistry) (name : String)
    (version : Option String := none) : Option Skill :=
  match version with
  | some v =>
      if v = "" then
        latestByVersion ((dictValues r.skills).filter (fun s => s.metadata.name == name))
      else
        dictGet r.skills (name ++ "@" ++ v)
  | none =>
      latestByVersion ((dictValues r.skills).filter (fun s => s.metadata.name == name))

/-- `SkillRegistry.find_by_trigger`: all skills whose `can_trigger` is true. -/
def SkillRegistry.findByTrigger (r : SkillRegistry) (inputText : String)
    (context : Option (List (String × Value)) := none) : List Skill :=
  (dictValues r.skills).filter (fun s => s.canTrigger inputText context)

/-- `SkillRegistry.list_all`. -/
def SkillRegistry.listAll (r : SkillRegistry) : List Skill :=
  dictValues r.skills

/-- `unit_test_framework.TestStatus`. -/
inductive TestStatus where
  | passed
  | failed
  | skipped
  | error
  deriving DecidableEq, Repr

/-- `unit_test_framework.TestResult`; the message, details map and wall-clock
duration carried by the source record are elided (no claim depends on them). -/
structure TestResult where
  testName : String
  status : TestStatus
  deriving DecidableEq, Repr

/-- `integration_test_framework.IntegrationTestCase`. `expected_output` keeps
its Python default `None` (`Value.vNone`), which the validator treats as "no
expected value declared". -/
structure IntegrationTestCase where
  name : String
  description : String
  skillName : String
  skillVersion : Option String := none
  inputParams : List (String × Value) := []
  expectedOutput : Value := Value.vNone
  expectedOutputType : Option String := none
  shouldSucceed : Bool := true
  deriving Repr

/-- `SkillIntegrationTester._validate_output`, reduced to its `valid` field:
a truthy expected type must equal the runtime type name, then a non-`None`
expected value must equal the actual output; with neither declared the output
is accepted. -/
def validateOutput (actual : Value) (expected : Value)
    (expectedType : Option String) : Bool :=
  let typeMismatch :=
    match expectedType with
    | some t => if t = "" then false else decide (actual.typeName ≠ t)
    | none => false
  if typeMismatch then false
  else if expected = Value.vNone then true
  else actual == expected

/-- `SkillIntegrationTester.run_test_case`, reduced to the emitted result:
an unresolvable skill is an Error; otherwise the four outcome/expectation
combinations of the execute call decide the verdict. The invocation-ledger
append and the wall-clock duration are elided. -/
def runTestCase (registry : SkillRegistry) (tc : IntegrationTestCase) :
    TestResult :=
  match registry.get tc.skillName tc.skillVersion with
  | none => { testName := tc.name, status := TestStatus.error }
  | some skill =>
      match skill.execute tc.inputParams with
      | Except.ok output =>
          if tc.shouldSucceed then
            if validateOutput output tc.expectedOutput tc.expectedOutputType then
              { testName := tc.name, status := TestStatus.passed }
            else
              { testName := tc.name, status := TestStatus.failed }
          else
            { testName := tc.name, status := TestStatus.failed }
      | Except.error _ =>
          if tc.shouldSucceed then
            { testName := tc.name, status := TestStatus.failed }
          else
            { testName := tc.name, status := TestStatus.passed }

/-- A metrics snapshot as read by `RegressionDetector.detect_regression`:
`none` models a key missing from the loaded dict (`dict.get` style access;
the source defaults a missing pass rate to `"0%"` and skips the duration
comparison unless both snapshots carry the key). The percent string
serialization of the pass rate is I/O and is elided. -/
structure MetricsSnapshot where
  passRate : Option ℚ := none
  avgDurationMs : Option ℚ := none
  deriving DecidableEq, Repr

/-- Which metric a regression entry is about. -/
inductive RegressionMetric where
  | passRate
  | avgDurationMs
  deriving DecidableEq, Repr

/-- One entry of the `regressions` list; `change` is the number the source
formats into the change string (`current - baseline` percentage points for the
pass rate, percent increase for the mean duration). -/
structure RegressionEntry where
  metric : RegressionMetric
  baseline : ℚ
  current : ℚ
  change : ℚ
  deriving DecidableEq, Repr

/-- One entry of the `improvements` list. -/
structure ImprovementEntry where
  metric : RegressionMetric
  improvement : ℚ
  deriving DecidableEq, Repr

/-- `RegressionDetector._detect_improvements`: a pass-rate gain of more than
2 points is reported. -/
def detectImprovements (baseline current : MetricsSnapshot) :
    List ImprovementEntry :=
  let bp := baseline.passRate.getD 0
  let cp := current.passRate.getD 0
  if cp > bp + 2 then
    [{ metric := RegressionMetric.passRate, improvement := cp - bp }]
  else []

/-- The dict returned by `detect_regression`; `action = some "save_baseline"`
models the first-run branch. -/
structure RegressionReport where
  hasRegression : Bool
  action : Option String := none
  regressions : List RegressionEntry := []
  improvements : List ImprovementEntry := []
  deriving DecidableEq, Repr

/-- `RegressionDetector.detect_regression`: with no baseline, report no
regression and ask to save one. Otherwise flag the pass rate when it dropped
by more than 5 points, flag the mean duration (when both snapshots carry one)
when it exceeds 1.5 times the baseline mean, and report improvements only when
nothing was flagged. -/
def detectRegression (baseline : Option MetricsSnapshot)
    (current : MetricsSnapshot) : RegressionReport :=
  match baseline with
  | none => { hasRegression := false, action := some "save_baseline" }
  | some b =>
      let bp := b.passRate.getD 0
      let cp := current.passRate.getD 0
      let passRateRegs : List RegressionEntry :=
        if cp < bp - 5 then
          [{ metric := RegressionMetric.passRate, baseline := bp, current := cp,
             change := cp - bp }]
        else []
      let durationRegs : List RegressionEntry :=
        match b.avgDurationMs, current.avgDurationMs with
        | some bd, some cd =>
            if cd > bd * 1.5 then
              [{ metric := RegressionMetric.avgDurationMs, baseline := bd,
                 current := cd, change := (cd / bd - 1) * 100 }]
            else []
        | _, _ => []
      let regressions := passRateRegs ++ durationRegs
      if regressions.isEmpty then
        { hasRegression := false, improvements := detectImprovements b current }
      else
        { hasRegression := true, regressions := regressions }

/-- The aggregate counts of `UnifiedTestRunner._compute_overall_metrics`
(the duration and timestamp fields are wall-clock and are elided). -/
structure OverallMetrics where
  totalTests : Nat
  passed : Nat
  failed : Nat
  errors : Nat
  passRate : ℚ
  deriving DecidableEq, Repr

/-- `UnifiedTestRunner._compute_overall_metrics` over the merged ledger
`self.all_results`. -/
def computeOverallMetrics (allResults : List TestResult) : OverallMetrics :=
  let total := allResults.length
  let passed := allResults.countP (fun r => r.status == TestStatus.passed)
  let failed := allResults.countP (fun r => r.status == TestStatus.failed)
  let errors := allResults.countP (fun r => r.status == TestStatus.error)
  { totalTests := total, passed := passed, failed := failed, errors := errors,
    passRate := if total > 0 then (passed : ℚ) / (total : ℚ) * 100 else 0 }

/-- The overall boolean verdict computed from the merged ledger, as in
`run_pre_commit_hook`, `run_on_skill_change` and `_print_final_summary`:
`metrics["failed"] == 0 and metrics["errors"] == 0`. -/
def overallVerdict (allResults : List TestResult) : Bool :=
  let metrics := computeOverallMetrics allResults
  metrics.failed == 0 && metrics.errors == 0

/-- `e2e_test_framework.WorkflowStep`; the step validation callable receives
the step output and the project directory. -/
structure WorkflowStep where
  name : String
  skillName : String
  inputParams : List (String × Value) := []
  expectedOutcome : Option String := none
  validationFunc : Option (Value → String → Bool) := none
  timeoutMs : Nat := 30000

/-- `e2e_test_framework.E2ETestCase`; setup and teardown hooks receive the
workspace path and may raise. -/
structure E2ETestCase where
  name : String
  description : String
  workflow : List WorkflowStep
  setupFunc : Option (String → Except String Unit) := none
  teardownFunc : Option (String → Except String Unit) := none
  projectTemplate : Option String := none
  environment : List (String × String) := []
  expectedFiles : List String := []
  expectedGitCommits : Nat := 0
  validationCommands : List String := []

/-- The observable outcome of one external validation command run by
`_validate_outcome` (a completed process with its exit code, a timeout, or a
raised exception). -/
inductive CmdResult where
  | exited (code : Int) (stdout : String) (stderr : String)
  | timedOut
  | raised (msg : String)

/-- The external collaborators of the E2E runner, supplied as oracles:
the outcome of `_setup_environment` (workspace path or raised exception),
file existence, the git commit count query, and the validation command
runner. -/
structure E2EEnv where
  setupEnvironment : Except String String
  fileExists : String → Bool
  gitCommitCount : Except String Nat
  runCommand : String → CmdResult

/-- `E2ETestRunner._execute_workflow`, reduced to its success/error outcome:
each step resolves its skill (error if absent), merges the workspace hint
`_project_dir` into its parameters, executes, and applies its optional
validation predicate; the first failure aborts the remaining steps. The
per-step ledger (`steps_completed` and friends) is elided. -/
def executeWorkflow (registry : SkillRegistry) (projectDir : String) :
    List WorkflowStep → Except String Unit
  | [] => Except.ok ()
  | step :: rest =>
      match registry.get step.skillName with
      | none => Except.error ("Skill not found: " ++ step.skillName)
      | some skill =>
          let params := dictInsert step.inputParams "_project_dir" (Value.vStr projectDir)
          match skill.execute params with
          | Except.error _ => Except.error ("Step failed: " ++ step.name)
          | Except.ok output =>
              match step.validationFunc with
              | some vf =>
                  if vf output projectDir then executeWorkflow registry projectDir rest
                  else Except.error ("Step validation failed: " ++ step.name)
              | none => executeWorkflow registry projectDir rest

/-- The validation-command loop of `_validate_outcome`: each command must exit
with status zero; a nonzero exit, a timeout or a raised exception fails the
case. Returns the number of command checks performed on success. -/
def runValidationCommands (env : E2EEnv) : List String → Except String Nat
  | [] => Except.ok 0
  | cmd :: rest =>
      match env.runCommand cmd with
      | CmdResult.exited code _ _ =>
          if code = 0 then
            match runValidationCommands env rest with
            | Except.ok n => Except.ok (n + 1)
            | Except.error e => Except.error e
          else
            Except.error ("Validation command failed: " ++ cmd)
      | CmdResult.timedOut => Except.error ("Validation command timeout: " ++ cmd)
      | CmdResult.raised e => Except.error ("Validation command error: " ++ e)

/-- `E2ETestRunner._validate_outcome`: every expected file must exist, then
the commit count must reach the expectation when one is declared, then every
validation command must succeed. Returns the number of checks performed on
success (`error` carries the first failure reason). -/
def validateOutcome (env : E2EEnv) (tc : E2ETestCase) (projectDir : String) :
    Except String Nat :=
  match tc.expectedFiles.find? (fun f => !(env.fileExists (projectDir ++ "/" ++ f))) with
  | some f => Except.error ("Expected file not found: " ++ f)
  | none =>
      let fileChecks := tc.expectedFiles.length
      let gitStep : Except String Nat :=
        if tc.expectedGitCommits > 0 then
          match env.gitCommitCount with
          | Except.error e => Except.error ("Failed to check git commits: " ++ e)
          | Except.ok n =>
              if n ≥ tc.expectedGitCommits then Except.ok 1
              else Except.error "Expected commit count not reached"
        else Except.ok 0
      match gitStep with
      | Except.error e => Except.error e
      | Except.ok gitChecks =>
          match runValidationCommands env tc.validationCommands with
          | Except.error e => Except.error e
          | Except.ok cmdChecks => Except.ok (fileChecks + gitChecks + cmdChecks)

/-- The body of `E2ETestRunner.run_test_case` after the environment and the
optional setup hook succeeded: a workflow failure is a Failed result, a
validation failure is a Failed result, and full success is Passed. -/
def runE2EBody (registry : SkillRegistry) (env : E2EEnv) (tc : E2ETestCase)
    (tempDir : String) : TestResult :=
  match executeWorkflow registry tempDir tc.workflow with
  | Except.error _ => { testName := tc.name, status := TestStatus.failed }
  | Except.ok _ =>
      match validateOutcome env tc tempDir with
      | Except.ok _ => { testName := tc.name, status := TestStatus.passed }
      | Except.error _ => { testName := tc.name, status := TestStatus.failed }

/-- `E2ETestRunner.run_test_case`, with the teardown side effect made explicit:
the second component counts how many times the teardown hook is invoked by the
`finally` block. `temp_dir` starts as `None`; when `_setup_environment` raises,
the outer handler emits an Error result and the `finally` guard
`test_case.teardown_func and temp_dir` is falsy, so teardown is not invoked.
After setup returned a (nonempty, hence truthy) path, the guard invokes a
declared teardown hook exactly once on every path — also when the setup hook
raised (Error), the workflow failed (Failed), validation failed (Failed) or
everything passed — and an exception raised by the teardown hook itself is
swallowed. -/
def runE2ETestCase (registry : SkillRegistry) (env : E2EEnv) (tc : E2ETestCase) :
    TestResult × Nat :=
  match env.setupEnvironment with
  | Except.error _ => ({ testName := tc.name, status := TestStatus.error }, 0)
  | Except.ok tempDir =>
      let teardownRuns := if tc.teardownFunc.isSome ∧ tempDir ≠ "" then 1 else 0
      let result :=
        match tc.setupFunc with
        | some setup =>
            match setup tempDir with
            | Except.error _ => { testName := tc.name, status := TestStatus.error }
            | Except.ok _ => runE2EBody registry env tc tempDir
        | none => runE2EBody registry env tc tempDir
      (result, teardownRuns)

/-! Concrete instances used by the closed witness and counterexample
statements below. -/

/-- Metadata of a minimal well-formed skill. -/
def demoMetadata : SkillMetadata :=
  { name := "demo", version := "1.0.0", description := "A demo skill",
    skillType := SkillType.tool, author := "tester",
    createdAt := "2024-01-01", updatedAt := "2024-01-01" }

/-- A keyword trigger on the pattern `demo`. -/
def demoTrigger : TriggerRule :=
  { conditionType := TriggerCondition.keyword, pattern := "demo" }

/-- A minimal valid skill whose body returns the string `hi`. -/
def demoSkill : Skill :=
  { metadata := demoMetadata
    triggers := [demoTrigger]
    parameters := []
    output := { type := "str" }
    implementation := some (fun _ => Except.ok (Value.vStr "hi")) }

/-- A valid skill with one required parameter `x` and no default. -/
def reqParamSkill : Skill :=
  { metadata := { demoMetadata with name := "req" }
    triggers := [demoTrigger]
    parameters := [{ name := "x", type := "int" }]
    output := { type := "str" }
    implementation := some (fun _ => Except.ok Value.vNone) }

/-- An invalid skill: its name is empty (everything else is well-formed). -/
def invalidSkill : Skill :=
  { metadata := { demoMetadata with name := "" }
    triggers := [demoTrigger]
    parameters := []
    output := { type := "str" }
    promptTemplate := "template" }

/-- A skill whose only trigger has the automatic condition type. -/
def autoSkill : Skill :=
  { metadata := { demoMetadata with name := "auto-only" }
    triggers := [{ conditionType := TriggerCondition.auto, pattern := "anything" }]
    parameters := []
    output := { type := "str" }
    promptTemplate := "template" }

/-- Version `9.0.0` of the skill `pick`. -/
def skillNine : Skill :=
  { metadata := { demoMetadata with name := "pick", version := "9.0.0" }
    triggers := [demoTrigger]
    parameters := []
    output := { type := "str" }
    promptTemplate := "template" }

/-- Version `10.0.0` of the skill `pick`. -/
def skillTen : Skill :=
  { metadata := { demoMetadata with name := "pick", version := "10.0.0" }
    triggers := [demoTrigger]
    parameters := []
    output := { type := "str" }
    promptTemplate := "template" }

/-- A registry holding both versions of `pick` (version `10.0.0` registered
first). -/
def pickRegistry : SkillRegistry :=
  { skills := [("pick@10.0.0", skillTen), ("pick@9.0.0", skillNine)] }

/-- A registry holding only `demoSkill`. -/
def demoRegistry : SkillRegistry :=
  { skills := [("demo@1.0.0", demoSkill)] }

example : ("10.0.0" : String) < "9.0.0" := by
  rw [String.lt_iff_toList_lt]; decide
example : SkillRegistry.get pickRegistry "pick" none = some skillNine := by rfl
example : Skill.validate demoSkill = [] := by rfl
example : Skill.validate invalidSkill = [ValidationIssue.nameRequired] := by rfl
example : (SkillRegistry.register { skills := [] } demoSkill).2 = none := by rfl
example :
    TriggerRule.matches
      { conditionType := TriggerCondition.keyword, pattern := "code review" }
      "Code Review" none = true := by rfl
example : Skill.validateParameters reqParamSkill [] =
    [ParamIssue.missingRequired ["x"]] := by rfl
example : Skill.execute reqParamSkill [] =
    Except.error (ExecError.paramError [ParamIssue.missingRequired ["x"]]) := by rfl
example :
    runTestCase demoRegistry
      { name := "t1", description := "d", skillName := "demo" } =
    { testName := "t1", status := TestStatus.passed } := by rfl
example :
    detectRegression (some { passRate := some 96 }) { passRate := some 84 } =
    { hasRegression := true
      regressions := [{ metric := RegressionMetric.passRate, baseline := 96,
                        current := 84, change := -12 }] } := by
  norm_num [detectRegression]
example :
    (detectRegression (some { passRate := some 96, avgDurationMs := some 125.5 })
      { passRate := some 96, avgDurationMs := some 200 }).hasRegression = true := by
  norm_num [detectRegression]
example :
    (detectRegression (some { passRate := some 96, avgDurationMs := some 125.5 })
      { passRate := some 96, avgDurationMs := some 180 }).hasRegression = false := by
  norm_num [detectRegression, detectImprovements]

/-! Helper lemmas. -/

/-- Looking up the key just inserted returns the inserted value. -/
theorem dictGet_dictInsert {α : Type} (d : List (String × α)) (k : String) (v : α) :
    dictGet (dictInsert d k v) k = some v := by
  induction d with
  | nil => simp [dictInsert, dictGet]
  | cons hd tl ih =>
      obtain ⟨k1, v1⟩ := hd
      by_cases h : k1 = k
      · simp [dictInsert, dictGet, h]
      · simp [dictInsert, dictGet, h, ih]

/-- Parameter validation ignores the implementation field. -/
theorem validateParameters_update_impl (s : Skill)
    (impl : Option (List (String × Value) → Except String Value))
    (params : List (String × Value)) :
    Skill.validateParameters { s with implementation := impl } params =
      s.validateParameters params := rfl

/-! Claim theorems. -/

/-- C3: registering a skill whose `validate` reports at least one error raises
that full error list (`ValidationError`) and leaves the registry unchanged —
the invalid skill is never stored. -/
theorem register_invalid_skill_rejected (r : SkillRegistry) (s : Skill)
    (h : s.validate ≠ []) :
    r.register s = (r, some s.validate) := by
  have hne : s.validate.isEmpty = false := by
    cases hv : s.validate with
    | nil => exact absurd hv h
    | cons a l => rfl
  simp [SkillRegistry.register, hne]

/-- Witness for C3: registering the empty-named skill into the empty registry
raises its validation errors and leaves the registry empty. -/
theorem register_invalid_skill_rejected_witness :
    SkillRegistry.register { skills := [] } invalidSkill =
      ({ skills := [] }, some invalidSkill.validate) :=
  register_invalid_skill_rejected { skills := [] } invalidSkill (by decide)

/-- C4: registering a valid skill and immediately fetching it by its name and
version returns that very skill (round trip through the `name@version` key). -/
theorem register_get_roundtrip (r : SkillRegistry) (s : Skill)
    (hvalid : s.validate = []) :
    ((r.register s).1).get s.metadata.name (some s.metadata.version) = some s := by
  have hver : s.metadata.version ≠ "" := by
    intro hv
    simp [Skill.validate, hv] at hvalid
  have hreg : (r.register s).1 = { skills := dictInsert r.skills (skillId s) s } := by
    simp [SkillRegistry.register, hvalid]
  rw [hreg]
  simp only [SkillRegistry.get, hver, if_neg]
  exact dictGet_dictInsert r.skills (skillId s) s

/-- Witness for C4: the demo skill registered into the empty registry is
returned by `get "demo" "1.0.0"`. -/
theorem register_get_roundtrip_witness :
    ((SkillRegistry.register { skills := [] } demoSkill).1).get "demo" (some "1.0.0") =
      some demoSkill :=
  register_get_roundtrip { skills := [] } demoSkill rfl

/-- C5: `can_trigger` is true iff at least one trigger rule matches the input
and context, and a keyword trigger matches exactly when its pattern is a
case-insensitive substring of the input; in particular the input
`Code Review` matches the pattern `code review`. -/
theorem can_trigger_any_of_keyword_substring :
    (∀ (s : Skill) (input : String) (ctx : Option (List (String × Value))),
       s.canTrigger input ctx = true ↔ ∃ t ∈ s.triggers, t.matches input ctx = true)
    ∧ (∀ (t : TriggerRule) (input : String) (ctx : Option (List (String × Value))),
       t.conditionType = TriggerCondition.keyword →
       (t.matches input ctx = true ↔
         t.pattern.toList.map Char.toLower <:+: input.toList.map Char.toLower))
    ∧ TriggerRule.matches
        { conditionType := TriggerCondition.keyword, pattern := "code review" }
        "Code Review" none = true := by
  refine ⟨?_, ?_, by rfl⟩
  · intro s input ctx
    simp [Skill.canTrigger, List.any_eq_true]
  · intro t input ctx h
    simp [TriggerRule.matches, h]

/-- Witness for C5: the keyword pattern `review` matches the input
`Code Review please`, via the substring characterization. -/
theorem can_trigger_any_of_keyword_substring_witness :
    TriggerRule.matches
      { conditionType := TriggerCondition.keyword, pattern := "review" }
      "Code Review please" none = true :=
  (can_trigger_any_of_keyword_substring.2.1
    { conditionType := TriggerCondition.keyword, pattern := "review" }
    "Code Review please" none rfl).mpr (by decide)

/-- C10: an AUTO trigger rule never matches any input or context, a skill all
of whose triggers are AUTO can never trigger, and such a skill is never
returned by `find_by_trigger`. -/
theorem auto_trigger_never_fires :
    (∀ (t : TriggerRule) (input : String) (ctx : Option (List (String × Value))),
       t.conditionType = TriggerCondition.auto → t.matches input ctx = false)
    ∧ (∀ (s : Skill) (input : String) (ctx : Option (List (String × Value))),
       (∀ t ∈ s.triggers, t.conditionType = TriggerCondition.auto) →
       s.canTrigger input ctx = false)
    ∧ (∀ (r : SkillRegistry) (s : Skill) (input : String)
         (ctx : Option (List (String × Value))),
       (∀ t ∈ s.triggers, t.conditionType = TriggerCondition.auto) →
       s ∉ r.findByTrigger input ctx) := by
  have h1 : ∀ (t : TriggerRule) (input : String) (ctx : Option (List (String × Value))),
      t.conditionType = TriggerCondition.auto → t.matches input ctx = false := by
    intro t input ctx h
    simp [TriggerRule.matches, h]
  have h2 : ∀ (s : Skill) (input : String) (ctx : Option (List (String × Value))),
      (∀ t ∈ s.triggers, t.conditionType = TriggerCondition.auto) →
      s.canTrigger input ctx = false := by
    intro s input ctx h
    simp only [Skill.canTrigger, List.any_eq_false]
    intro t ht
    simp [h1 t input ctx (h t ht)]
  refine ⟨h1, h2, ?_⟩
  intro r s input ctx h hmem
  simp only [SkillRegistry.findByTrigger, List.mem_filter] at hmem
  rw [h2 s input ctx h] at hmem
  exact Bool.false_ne_true hmem.2

/-- Witness for C10: the concrete all-AUTO skill cannot trigger. -/
theorem auto_trigger_never_fires_witness :
    autoSkill.canTrigger "anything at all" none = false :=
  auto_trigger_never_fires.2.1 autoSkill "anything at all" none (by decide)

/-- C9: the overall verdict of the unified runner is false iff the merged
ledger contains at least one Failed or at least one Error result
(equivalently, it passes iff the failed and error counts are both zero). -/
theorem overall_verdict_iff_failed_or_error (allResults : List TestResult) :
    overallVerdict allResults = false ↔
      ∃ r ∈ allResults,
        r.status = TestStatus.failed ∨ r.status = TestStatus.error := by
  have hv : overallVerdict allResults = false ↔
      ¬ (allResults.countP (fun r => r.status == TestStatus.failed) = 0 ∧
         allResults.countP (fun r => r.status == TestStatus.error) = 0) := by
    unfold overallVerdict computeOverallMetrics
    rw [← Bool.not_eq_true]
    simp [Bool.and_eq_true]
  rw [hv, not_and_or]
  have hne : ∀ (p : TestResult → Bool),
      ¬ allResults.countP p = 0 ↔ ∃ r ∈ allResults, p r = true := by
    intro p
    constructor
    · intro h
      exact List.countP_pos_iff.mp (Nat.pos_of_ne_zero h)
    · rintro ⟨r, hr, hp⟩ h0
      have hpos := List.countP_pos_iff.mpr ⟨r, hr, hp⟩
      omega
  rw [hne, hne]
  constructor
  · rintro (⟨r, hr, hp⟩ | ⟨r, hr, hp⟩)
    · exact ⟨r, hr, Or.inl (by simpa using hp)⟩
    · exact ⟨r, hr, Or.inr (by simpa using hp)⟩
  · rintro ⟨r, hr, hp | hp⟩
    · exact Or.inl ⟨r, hr, by simp [hp]⟩
    · exact Or.inr ⟨r, hr, by simp [hp]⟩

/-- Witness for C9: a singleton Failed ledger yields a false verdict. -/
theorem overall_verdict_iff_failed_or_error_witness :
    overallVerdict [{ testName := "t", status := TestStatus.failed }] = false :=
  (overall_verdict_iff_failed_or_error _).mpr
    ⟨{ testName := "t", status := TestStatus.failed }, by simp, Or.inl rfl⟩

/-- C2: when the parameter-error list is nonempty (in particular whenever a
required parameter is missing or a custom validation predicate rejects a
supplied value), `execute` raises a `ParameterError` carrying the full error
list and the body is never invoked — the result is the same for every
implementation; the body is invoked only when the error list is empty. -/
theorem execute_parameter_validation_gate (s : Skill)
    (params : List (String × Value)) :
    (s.validateParameters params ≠ [] →
      s.execute params =
          Except.error (ExecError.paramError (s.validateParameters params))
        ∧ ∀ impl, Skill.execute { s with implementation := impl } params =
            Except.error (ExecError.paramError (s.validateParameters params)))
    ∧ ((∃ p ∈ s.parameters, p.required = true ∧ dictGet params p.name = none) →
        s.validateParameters params ≠ [])
    ∧ ((∃ p ∈ s.parameters, ∃ f, p.validation = some f ∧
          ∃ v, dictGet params p.name = some v ∧ f v = false) →
        s.validateParameters params ≠ [])
    ∧ (s.validateParameters params = [] →
        ∀ f, s.implementation = some f →
          s.execute params =
            match f params with
            | Except.ok v => Except.ok v
            | Except.error e => Except.error (ExecError.bodyError e)) := by
  refine ⟨?_, ?_, ?_, ?_⟩
  · intro h
    have hne : (s.validateParameters params).isEmpty = false := by
      cases hv : s.validateParameters params with
      | nil => exact absurd hv h
      | cons a l => rfl
    constructor
    · simp [Skill.execute, hne]
    · intro impl
      simp [Skill.execute, validateParameters_update_impl, hne]
  · rintro ⟨p, hp, hreq, hget⟩ hnil
    simp only [Skill.validateParameters] at hnil
    rcases List.append_eq_nil.mp hnil with ⟨h1, _⟩
    have hmem : p.name ∈
        ((s.parameters.filter (fun q => q.required)).map (fun q => q.name)).filter
          (fun n => !(dictContains params n)) := by
      apply List.mem_filter.mpr
      refine ⟨List.mem_map.mpr ⟨p, List.mem_filter.mpr ⟨hp, hreq⟩, rfl⟩, ?_⟩
      simp [dictContains, hget]
    rcases hmiss : ((s.parameters.filter (fun q => q.required)).map
        (fun q => q.name)).filter (fun n => !(dictContains params n)) with _ | ⟨a, l⟩
    · rw [hmiss] at hmem
      exact absurd hmem (List.not_mem_nil _)
    · rw [hmiss] at h1
      simp at h1
  · rintro ⟨p, hp, f, hf, v, hv, hfv⟩ hnil
    simp only [Skill.validateParameters] at hnil
    rcases List.append_eq_nil.mp hnil with ⟨_, h2⟩
    have hmem : ParamIssue.validationFailed p.name ∈ s.parameters.filterMap (fun q =>
        match dictGet params q.name with
        | some w =>
            match q.validation with
            | some g => if g w then none else some (ParamIssue.validationFailed q.name)
            | none => none
        | none => none) := by
      apply List.mem_filterMap.mpr
      exact ⟨p, hp, by simp [hv, hf, hfv]⟩
    rw [h2] at hmem
    exact absurd hmem (List.not_mem_nil _)
  · intro h f hf
    simp [Skill.execute, h, hf]

/-- Witness for C2: executing the skill with a required parameter `x` on an
empty parameter map raises the parameter error. -/
theorem execute_parameter_validation_gate_witness :
    reqParamSkill.execute [] =
      Except.error (ExecError.paramError (reqParamSkill.validateParameters [])) :=
  ((execute_parameter_validation_gate reqParamSkill []).1 (by decide)).1

/-- C1: when the named skill resolves in the registry, the integration verdict
is determined exactly by the four outcome/expectation combinations: success
with matching output and an expected success passes; success with mismatching
output and an expected success fails; success with an expected failure fails;
a raise with an expected success fails; a raise with an expected failure
passes. -/
theorem integration_verdict_table (registry : SkillRegistry)
    (tc : IntegrationTestCase) (skill : Skill)
    (hres : registry.get tc.skillName tc.skillVersion = some skill) :
    (∀ output, skill.execute tc.inputParams = Except.ok output →
       tc.shouldSucceed = true →
       validateOutput output tc.expectedOutput tc.expectedOutputType = true →
       (runTestCase registry tc).status = TestStatus.passed)
    ∧ (∀ output, skill.execute tc.inputParams = Except.ok output →
       tc.shouldSucceed = true →
       validateOutput output tc.expectedOutput tc.expectedOutputType = false →
       (runTestCase registry tc).status = TestStatus.failed)
    ∧ (∀ output, skill.execute tc.inputParams = Except.ok output →
       tc.shouldSucceed = false →
       (runTestCase registry tc).status = TestStatus.failed)
    ∧ (∀ e, skill.execute tc.inputParams = Except.error e →
       tc.shouldSucceed = true →
       (runTestCase registry tc).status = TestStatus.failed)
    ∧ (∀ e, skill.execute tc.inputParams = Except.error e →
       tc.shouldSucceed = false →
       (runTestCase registry tc).status = TestStatus.passed) := by
  refine ⟨?_, ?_, ?_, ?_, ?_⟩
  · intro output hx hss hval
    simp [runTestCase, hres, hx, hss, hval]
  · intro output hx hss hval
    simp [runTestCase, hres, hx, hss, hval]
  · intro output hx hss
    simp [runTestCase, hres, hx, hss]
  · intro e hx hss
    simp [runTestCase, hres, hx, hss]
  · intro e hx hss
    simp [runTestCase, hres, hx, hss]

/-- Witness for C1: the demo skill executes successfully with no declared
expectations under an expected success, so the case passes. -/
theorem integration_verdict_table_witness :
    (runTestCase demoRegistry
      { name := "t1", description := "d", skillName := "demo" }).status =
      TestStatus.passed :=
  (integration_verdict_table demoRegistry
    { name := "t1", description := "d", skillName := "demo" } demoSkill rfl).1
    (Value.vStr "hi") rfl rfl rfl

/-- The fold inside `latestByVersion` yields the accumulator or a list
element. -/
theorem foldl_version_max_mem (xs : List Skill) (a : Skill) :
    xs.foldl (fun best s =>
      if best.metadata.version.toList < s.metadata.version.toList then s else best) a = a ∨
    xs.foldl (fun best s =>
      if best.metadata.version.toList < s.metadata.version.toList then s else best) a ∈ xs := by
  induction xs generalizing a with
  | nil => left; rfl
  | cons x xs ih =>
      simp only [List.foldl_cons]
      rcases ih (if a.metadata.version.toList < x.metadata.version.toList then x else a)
        with h | h
      · rw [h]
        split
        · right; exact List.mem_cons_self x xs
        · left; rfl
      · right; exact List.mem_cons_of_mem x h

/-- The fold inside `latestByVersion` dominates the accumulator and every list
element in the version-string order. -/
theorem foldl_version_max_ge (xs : List Skill) (a : Skill) :
    a.metadata.version.toList ≤
      (xs.foldl (fun best s =>
        if best.metadata.version.toList < s.metadata.version.toList then s else best)
        a).metadata.version.toList ∧
    ∀ t ∈ xs, t.metadata.version.toList ≤
      (xs.foldl (fun best s =>
        if best.metadata.version.toList < s.metadata.version.toList then s else best)
        a).metadata.version.toList := by
  induction xs generalizing a with
  | nil => exact ⟨le_rfl, by simp⟩
  | cons x xs ih =>
      simp only [List.foldl_cons]
      obtain ⟨hinit, hall⟩ :=
        ih (if a.metadata.version.toList < x.metadata.version.toList then x else a)
      have hax : a.metadata.version.toList ≤
            (if a.metadata.version.toList < x.metadata.version.toList then x
             else a).metadata.version.toList ∧
          x.metadata.version.toList ≤
            (if a.metadata.version.toList < x.metadata.version.toList then x
             else a).metadata.version.toList := by
        by_cases h : a.metadata.version.toList < x.metadata.version.toList
        · rw [if_pos h]
          exact ⟨le_of_lt h, le_rfl⟩
        · rw [if_neg h]
          exact ⟨le_rfl, not_lt.mp h⟩
      refine ⟨le_trans hax.1 hinit, ?_⟩
      intro t ht
      rcases List.mem_cons.mp ht with rfl | ht'
      · exact le_trans hax.2 hinit
      · exact hall t ht'

/-- `latestByVersion` returns `none` exactly on the empty list. -/
theorem latestByVersion_eq_none (l : List Skill) :
    latestByVersion l = none ↔ l = [] := by
  cases l <;> simp [latestByVersion]

/-- A skill returned by `latestByVersion` is a list element whose version
string dominates every other element. -/
theorem latestByVersion_mem_max (l : List Skill) (s : Skill)
    (h : latestByVersion l = some s) :
    s ∈ l ∧ ∀ t ∈ l, t.metadata.version.toList ≤ s.metadata.version.toList := by
  cases l with
  | nil => simp [latestByVersion] at h
  | cons x xs =>
      simp only [latestByVersion, Option.some.injEq] at h
      subst h
      constructor
      · rcases foldl_version_max_mem xs x with h | h
        · rw [h]; exact List.mem_cons_self x xs
        · exact List.mem_cons_of_mem x h
      · intro t ht
        obtain ⟨hinit, hall⟩ := foldl_version_max_ge xs x
        rcases List.mem_cons.mp ht with rfl | ht'
        · exact hinit
        · exact hall t ht'

/-- C8: `get(name)` with no version returns the registered skill of that name
whose version string is greatest in the plain string order (so version
`"9.0.0"` beats `"10.0.0"`), and `none` when no skill of that name is
registered. -/
theorem get_latest_lexicographic :
    (∀ (r : SkillRegistry) (name : String),
       (r.get name none = none ↔
         ∀ s ∈ dictValues r.skills, s.metadata.name ≠ name)
       ∧ ∀ s, r.get name none = some s →
           s ∈ dictValues r.skills ∧ s.metadata.name = name ∧
           ∀ t ∈ dictValues r.skills, t.metadata.name = name →
             t.metadata.version ≤ s.metadata.version)
    ∧ pickRegistry.get "pick" none = some skillNine := by
  refine ⟨?_, by rfl⟩
  intro r name
  constructor
  · rw [show r.get name none =
        latestByVersion ((dictValues r.skills).filter
          (fun s => s.metadata.name == name)) from rfl]
    rw [latestByVersion_eq_none, List.filter_eq_nil_iff]
    simp
  · intro s hs
    rw [show r.get name none =
        latestByVersion ((dictValues r.skills).filter
          (fun s => s.metadata.name == name)) from rfl] at hs
    obtain ⟨hmem, hmax⟩ := latestByVersion_mem_max _ s hs
    rcases List.mem_filter.mp hmem with ⟨hmem', hname⟩
    refine ⟨hmem', by simpa using hname, ?_⟩
    intro t ht htname
    have htf : t ∈ (dictValues r.skills).filter (fun s => s.metadata.name == name) :=
      List.mem_filter.mpr ⟨ht, by simp [htname]⟩
    rw [String.le_iff_toList_le]
    exact hmax t htf

/-- Witness for C8: no skill named `ghost` is registered in the empty
registry, so `get "ghost"` returns `none`. -/
theorem get_latest_lexicographic_witness :
    SkillRegistry.get { skills := [] } "ghost" none = none :=
  ((get_latest_lexicographic.1 { skills := [] } "ghost").1).mpr
    (by simp [dictValues])

/-- An environment whose workspace setup raises (`tempfile.mkdtemp` or the
`git init` sequence failing). -/
def failSetupEnv : E2EEnv :=
  { setupEnvironment := Except.error "mkdtemp failed"
    fileExists := fun _ => true
    gitCommitCount := Except.ok 0
    runCommand := fun _ => CmdResult.exited 0 "" "" }

/-- An environment whose workspace setup succeeds. -/
def okSetupEnv : E2EEnv :=
  { setupEnvironment := Except.ok "/tmp/e2e_ws"
    fileExists := fun _ => true
    gitCommitCount := Except.ok 0
    runCommand := fun _ => CmdResult.exited 0 "" "" }

/-- An e2e case with an empty workflow and a declared teardown hook. -/
def teardownCase : E2ETestCase :=
  { name := "case", description := "d", workflow := []
    teardownFunc := some (fun _ => Except.ok ()) }

/-- Counterexample to C7: this case declares a teardown hook, yet when the
workspace setup itself raises, `run_test_case` emits an Error result without
ever invoking the hook (`temp_dir` is still `None` in the `finally` guard), so
the hook does not run in *every* outcome. -/
theorem e2e_teardown_skipped_on_setup_failure :
    teardownCase.teardownFunc.isSome = true ∧
    runE2ETestCase { skills := [] } failSetupEnv teardownCase =
      ({ testName := "case", status := TestStatus.error }, 0) :=
  ⟨rfl, rfl⟩

/-- C7 (amended): once workspace setup has returned a (nonempty) path, a
declared teardown hook runs exactly once per `run_test_case` invocation in
every outcome — Passed, Failed, and the Error from a failing setup hook —
before the result is emitted; when workspace setup itself raises, the case is
an Error and the teardown hook does not run. -/
theorem e2e_teardown_runs_once_after_setup (registry : SkillRegistry)
    (env : E2EEnv) (tc : E2ETestCase) (h : tc.teardownFunc.isSome = true) :
    (∀ d, env.setupEnvironment = Except.ok d → d ≠ "" →
       (runE2ETestCase registry env tc).2 = 1)
    ∧ (∀ e, env.setupEnvironment = Except.error e →
       (runE2ETestCase registry env tc).2 = 0) := by
  constructor
  · intro d hd hne
    unfold runE2ETestCase
    rw [hd]
    simp [h, hne]
  · intro e he
    unfold runE2ETestCase
    rw [he]

/-- Witness for the amended C7: with a succeeding setup, the teardown hook of
the concrete case runs exactly once. -/
theorem e2e_teardown_runs_once_after_setup_witness :
    (runE2ETestCase { skills := [] } okSetupEnv teardownCase).2 = 1 :=
  (e2e_teardown_runs_once_after_setup { skills := [] } okSetupEnv teardownCase
    rfl).1 "/tmp/e2e_ws" rfl (by decide)

/-- The final branch of `detect_regression` reports exactly the collected
regression list. -/
theorem report_regressions_of_ite (regs : List RegressionEntry)
    (imps : List ImprovementEntry) :
    (if regs.isEmpty then
        ({ hasRegression := false, improvements := imps } : RegressionReport)
      else { hasRegression := true, regressions := regs }).regressions = regs := by
  cases regs with
  | nil => rfl
  | cons x l => rfl

/-- The regression list produced by `detect_regression` against an existing
baseline, in closed form. -/
theorem detectRegression_regressions_eq (b cur : MetricsSnapshot) :
    (detectRegression (some b) cur).regressions =
      (if cur.passRate.getD 0 < b.passRate.getD 0 - 5 then
        [{ metric := RegressionMetric.passRate
           baseline := b.passRate.getD 0
           current := cur.passRate.getD 0
           change := cur.passRate.getD 0 - b.passRate.getD 0 }]
      else []) ++
      (match b.avgDurationMs, cur.avgDurationMs with
       | some bd, some cd =>
           if cd > bd * 1.5 then
             [{ metric := RegressionMetric.avgDurationMs, baseline := bd,
                current := cd, change := (cd / bd - 1) * 100 }]
           else []
       | _, _ => []) := by
  simp only [detectRegression]
  exact report_regressions_of_ite _ _

/-- Every entry contributed by the duration comparison concerns the duration
metric. -/
theorem mem_duration_regs_metric (x y : Option ℚ) (e : RegressionEntry)
    (h : e ∈ ((match x, y with
       | some bd, some cd =>
           if cd > bd * 1.5 then
             [{ metric := RegressionMetric.avgDurationMs, baseline := bd,
                current := cd, change := (cd / bd - 1) * 100 }]
           else []
       | _, _ => []) : List RegressionEntry)) :
    e.metric = RegressionMetric.avgDurationMs := by
  rcases x with _ | bd <;> rcases y with _ | cd
  · simp at h
  · simp at h
  · simp at h
  · have h2 : e ∈ (if cd > bd * 1.5 then
        [{ metric := RegressionMetric.avgDurationMs, baseline := bd,
           current := cd, change := (cd / bd - 1) * 100 }]
        else ([] : List RegressionEntry)) := h
    split at h2
    · rw [List.mem_singleton.mp h2]
    · simp at h2

/-- The duration comparison contributes its entry when the threshold is
exceeded. -/
theorem duration_entry_mem (bd cd : ℚ) (hgt : cd > bd * 1.5) :
    ({ metric := RegressionMetric.avgDurationMs, baseline := bd, current := cd,
       change := (cd / bd - 1) * 100 } : RegressionEntry) ∈
      (if cd > bd * 1.5 then
        [({ metric := RegressionMetric.avgDurationMs, baseline := bd,
            current := cd, change := (cd / bd - 1) * 100 } : RegressionEntry)]
      else []) := by
  rw [if_pos hgt]
  exact List.mem_singleton.mpr rfl

/-- C6: against a stored baseline, a pass-rate regression is flagged iff the
current pass rate is more than 5 points below the baseline, and a duration
regression is flagged iff the current mean exceeds 1.5 times the baseline
mean; in particular baseline 96 with current 84 is flagged with change -12,
current 95 is not flagged, baseline 125.5ms with current 200ms is flagged,
and current 180ms is not flagged. -/
theorem detect_regression_thresholds :
    (∀ (b cur : MetricsSnapshot),
       ((∃ e ∈ (detectRegression (some b) cur).regressions,
           e.metric = RegressionMetric.passRate) ↔
         cur.passRate.getD 0 < b.passRate.getD 0 - 5))
    ∧ (∀ (b cur : MetricsSnapshot) (bd cd : ℚ),
       b.avgDurationMs = some bd → cur.avgDurationMs = some cd →
       ((∃ e ∈ (detectRegression (some b) cur).regressions,
           e.metric = RegressionMetric.avgDurationMs) ↔ cd > bd * 1.5))
    ∧ detectRegression (some { passRate := some 96 }) { passRate := some 84 } =
        { hasRegression := true
          regressions := [{ metric := RegressionMetric.passRate, baseline := 96,
                            current := 84, change := -12 }] }
    ∧ (detectRegression (some { passRate := some 96 })
        { passRate := some 95 }).hasRegression = false
    ∧ (detectRegression (some { passRate := some 96, avgDurationMs := some 125.5 })
        { passRate := some 96, avgDurationMs := some 200 }) =
        { hasRegression := true
          regressions := [{ metric := RegressionMetric.avgDurationMs,
                            baseline := 125.5, current := 200,
                            change := (200 / 125.5 - 1) * 100 }] }
    ∧ (detectRegression (some { passRate := some 96, avgDurationMs := some 125.5 })
        { passRate := some 96, avgDurationMs := some 180 }).hasRegression = false := by
  refine ⟨?_, ?_, ?_, ?_, ?_, ?_⟩
  · intro b cur
    rw [detectRegression_regressions_eq]
    constructor
    · rintro ⟨e, he, hm⟩
      rcases List.mem_append.mp he with h | h
      · by_contra hc
        rw [if_neg hc] at h
        exact absurd h (List.not_mem_nil e)
      · have hd := mem_duration_regs_metric _ _ e h
        rw [hm] at hd
        exact absurd hd (by decide)
    · intro hc
      rw [if_pos hc]
      exact ⟨_, List.mem_append.mpr (Or.inl (List.mem_singleton.mpr rfl)), rfl⟩
  · intro b cur bd cd hb hcd
    rw [detectRegression_regressions_eq, hb, hcd]
    constructor
    · rintro ⟨e, he, hm⟩
      rcases List.mem_append.mp he with h | h
      · exfalso
        split at h
        · rw [List.mem_singleton.mp h] at hm
          simp at hm
        · exact absurd h (List.not_mem_nil e)
      · have h2 : e ∈ (if cd > bd * 1.5 then
            [{ metric := RegressionMetric.avgDurationMs, baseline := bd,
               current := cd, change := (cd / bd - 1) * 100 }]
            else ([] : List RegressionEntry)) := h
        by_contra hgt
        rw [if_neg hgt] at h2
        exact absurd h2 (List.not_mem_nil e)
    · intro hgt
      exact ⟨_, List.mem_append.mpr (Or.inr (duration_entry_mem bd cd hgt)), rfl⟩
  · norm_num [detectRegression]
  · norm_num [detectRegression, detectImprovements]
  · norm_num [detectRegression]
  · norm_num [detectRegression, detectImprovements]

/-- Witness for C6: instantiating the pass-rate characterization at baseline
96 and current 84 shows a pass-rate regression entry exists. -/
theorem detect_regression_thresholds_witness :
    ∃ e ∈ (detectRegression (some { passRate := some 96 })
      { passRate := some 84 }).regressions, e.metric = RegressionMetric.passRate :=
  (detect_regression_thresholds.1 { passRate := some 96 }
    { passRate := some 84 }).mpr (by norm_num)

end SkillTesting
